import Mathlib

/-!
# PrismaPilot — verification of the advanced-features decorator layer

A shallow embedding of `src/advanced-features.ts` (cache, soft delete,
tenant scoping, webhook, presets, CSV export) together with spec-modelled
versions of the pagination and filter helpers whose implementation files
are not part of the provided sources.  JavaScript objects are modelled as
ordered association lists with spread (`{...a, ...b}`) semantics; the base
`queryBuilder` is an opaque imported function and every decorator is
parametric in it.
-/

namespace PrismaPilot

/-! ## JavaScript values and objects -/

/-- A JavaScript runtime value, as far as the decorator layer inspects it. -/
inductive JVal where
  | undef : JVal
  | null : JVal
  | str : String → JVal
  | num : Int → JVal
  | bool : Bool → JVal
  | obj : List (String × JVal) → JVal
  | arr : List JVal → JVal

/-- A JavaScript object: an ordered association list of fields. -/
abbrev Obj := List (String × JVal)

/-- `o[k]`: the value of the first binding of key `k`, if any. -/
def getKey {V : Type} (o : List (String × V)) (k : String) : Option V :=
  (o.find? (fun p => p.1 == k)).map (fun p => p.2)

/-- `Map.set` semantics: replace the binding in place, else append. -/
def setKey {V : Type} (o : List (String × V)) (k : String) (v : V) :
    List (String × V) :=
  if (getKey o k).isSome then
    o.map (fun p => if p.1 == k then (k, v) else p)
  else
    o ++ [(k, v)]

/-- `Map.delete` semantics: remove the binding of key `k`. -/
def eraseKey {V : Type} (o : List (String × V)) (k : String) :
    List (String × V) :=
  o.filter (fun p => !(p.1 == k))

/-- The object spread `{...a, ...b}`: keys of `b` override keys of `a`. -/
def spreadObj {V : Type} (a b : List (String × V)) : List (String × V) :=
  a.filter (fun p => (getKey b p.1).isNone) ++ b

theorem find?_append {α : Type} (l₁ l₂ : List α) (p : α → Bool) :
    (l₁ ++ l₂).find? p = ((l₁.find? p).orElse (fun _ => l₂.find? p)) := by
  induction l₁ with
  | nil => simp [List.find?]
  | cons x xs ih =>
    by_cases h : p x = true
    · simp [List.find?, h, Option.orElse]
    · simp only [List.cons_append, List.find?]
      rw [Bool.not_eq_true] at h
      simp [h, ih]

theorem getKey_append {V : Type} (a b : List (String × V)) (k : String) :
    getKey (a ++ b) k = ((getKey a k).orElse (fun _ => getKey b k)) := by
  unfold getKey
  rw [find?_append]
  cases h : a.find? (fun p => p.1 == k) <;> simp [Option.orElse]

theorem getKey_eq_none_iff {V : Type} (o : List (String × V)) (k : String) :
    getKey o k = none ↔ ∀ x ∈ o, ¬ x.1 = k := by
  simp [getKey, List.find?_eq_none]

theorem getKey_cons {V : Type} (x : String × V) (xs : List (String × V))
    (k : String) :
    getKey (x :: xs) k = if x.1 = k then some x.2 else getKey xs k := by
  by_cases h : x.1 = k
  · simp [getKey, List.find?, h]
  · have hb : (x.1 == k) = false := by simpa using h
    simp [getKey, List.find?, hb, h]

/-- Keys bound in `b` read from `{...a, ...b}` with `b`'s value. -/
theorem getKey_spread_right {V : Type} (a b : List (String × V)) (k : String)
    (v : V) (h : getKey b k = some v) : getKey (spreadObj a b) k = some v := by
  unfold spreadObj
  rw [getKey_append]
  have hnone : getKey (a.filter (fun p => (getKey b p.1).isNone)) k = none := by
    rw [getKey_eq_none_iff]
    intro x hx hk
    rcases List.mem_filter.mp hx with ⟨_, hpred⟩
    rw [hk, h] at hpred
    simp at hpred
  rw [hnone]
  simpa [Option.orElse] using h

/-- Keys not bound in `b` read from `{...a, ...b}` with `a`'s value. -/
theorem getKey_spread_left {V : Type} (a b : List (String × V)) (k : String)
    (h : getKey b k = none) : getKey (spreadObj a b) k = getKey a k := by
  unfold spreadObj
  rw [getKey_append]
  have hfilter : getKey (a.filter (fun p => (getKey b p.1).isNone)) k
      = getKey a k := by
    induction a with
    | nil => rfl
    | cons x xs ih =>
      by_cases hx : x.1 = k
      · have hp : ((getKey b x.1).isNone : Bool) = true := by
          rw [hx, h]; rfl
        rw [List.filter_cons, if_pos hp, getKey_cons, getKey_cons,
          if_pos hx, if_pos hx]
      · by_cases hp : ((getKey b x.1).isNone : Bool) = true
        · rw [List.filter_cons, if_pos hp, getKey_cons, getKey_cons,
            if_neg hx, if_neg hx, ih]
        · rw [List.filter_cons, if_neg hp, ih, getKey_cons, if_neg hx]
  rw [hfilter]
  cases hga : getKey a k <;> simp [Option.orElse, h, hga]

/-- Spreading an empty object changes nothing: `{...a} = a`. -/
theorem spreadObj_nil {V : Type} (a : List (String × V)) :
    spreadObj a [] = a := by
  unfold spreadObj
  simp [getKey]

/-! ## The options object seen by the decorators

Each decorator takes the caller's options, replaces the `filters` field and
passes everything else through unchanged (`{...options, filters: ...}`).
We model that slice of the object explicitly: `filters` as an `Obj`, every
other field opaquely in `rest`. -/

structure QueryOptions where
  filters : Obj := []
  rest : Obj := []

/-! ## Soft delete support (`buildSoftDeleteFilter`, `softDeleteQueryBuilder`) -/

structure SoftDeleteOptions where
  includeTrashed : Bool := false
  trashedOnly : Bool := false
  deletedAtField : String := "deletedAt"

/-- `buildSoftDeleteFilter` from `src/advanced-features.ts`. -/
def buildSoftDeleteFilter (options : SoftDeleteOptions) : Obj :=
  if options.includeTrashed then
    []
  else if options.trashedOnly then
    [(options.deletedAtField, JVal.obj [("not", JVal.null)])]
  else
    [(options.deletedAtField, JVal.obj [("equals", JVal.null)])]

/-- `softDeleteQueryBuilder`: spreads the soft-delete filter over the
caller's filters and calls the base `queryBuilder` (passed as `qb`). -/
def softDeleteQueryBuilder {R : Type} (qb : QueryOptions → R)
    (options : QueryOptions) (softDeleteOptions : SoftDeleteOptions) : R :=
  qb { options with
        filters := spreadObj options.filters
          (buildSoftDeleteFilter softDeleteOptions) }

/-! ## Multi-tenant support (`buildTenantFilter`, `tenantQueryBuilder`)

At the JavaScript runtime a caller may omit `tenantId` (the TypeScript type
forbids it statically, but nothing checks at run time), so the model keeps
`tenantId` optional; an absent id destructures to `undefined`. -/

/-- The runtime value a possibly-omitted `tenantId` argument carries. -/
def tenantIdVal : Option String → JVal
  | some s => JVal.str s
  | none => JVal.undef

/-- `buildTenantFilter(tenantId, tenantField = "tenantId")`:
returns `{ [tenantField]: tenantId }`. -/
def buildTenantFilter (tenantId : Option String)
    (tenantField : String := "tenantId") : Obj :=
  [(tenantField, tenantIdVal tenantId)]

structure TenantConfig where
  tenantId : Option String := none
  tenantField : Option String := none

/-- Errors of the error-handling design chapter of the spec. -/
inductive QueryError where
  | invalidArgument : String → QueryError
  | notFound : String → QueryError

/-- `tenantQueryBuilder`: destructures the config (defaulting
`tenantField` to `"tenantId"`), builds the tenant filter, spreads it over
the caller's filters and calls the base `queryBuilder`.  The body contains
no validation and no throw of its own. -/
def tenantQueryBuilder {R : Type} (qb : QueryOptions → Except QueryError R)
    (options : QueryOptions) (tenantConfig : TenantConfig) :
    Except QueryError R :=
  let tenantField := tenantConfig.tenantField.getD "tenantId"
  let tenantFilter := buildTenantFilter tenantConfig.tenantId tenantField
  qb { options with filters := spreadObj options.filters tenantFilter }

/-- Claim C4: `buildSoftDeleteFilter` yields the `{deletedAtField: {equals:
null}}` filter by default (excluding rows with a non-null deleted-at field),
`{deletedAtField: {not: null}}` when `trashedOnly` is set, and no added filter
when `includeTrashed` is set, `includeTrashed` taking precedence when both
flags are set; `softDeleteQueryBuilder` spreads that filter over the caller's
filters as an additional conjunct, so with `includeTrashed` the base query runs
on the unchanged options. -/
theorem buildSoftDeleteFilter_spec :
    (∀ f : String,
      buildSoftDeleteFilter ⟨false, false, f⟩ =
        [(f, JVal.obj [("equals", JVal.null)])]) ∧
    (∀ f : String,
      buildSoftDeleteFilter ⟨false, true, f⟩ =
        [(f, JVal.obj [("not", JVal.null)])]) ∧
    (∀ (t : Bool) (f : String), buildSoftDeleteFilter ⟨true, t, f⟩ = []) ∧
    (∀ {R : Type} (qb : QueryOptions → R) (options : QueryOptions)
      (sdo : SoftDeleteOptions),
      softDeleteQueryBuilder qb options sdo =
        qb { options with
              filters := spreadObj options.filters
                (buildSoftDeleteFilter sdo) }) ∧
    (∀ {R : Type} (qb : QueryOptions → R) (options : QueryOptions) (t : Bool)
      (f : String),
      softDeleteQueryBuilder qb options ⟨true, t, f⟩ = qb options) := by
  refine ⟨fun f => rfl, fun f => rfl, fun t f => rfl, fun qb o sdo => rfl,
    fun qb o t f => ?_⟩
  show qb { o with filters := spreadObj o.filters (buildSoftDeleteFilter ⟨true, t, f⟩) } = qb o
  rw [show buildSoftDeleteFilter ⟨true, t, f⟩ = [] from rfl, spreadObj_nil]

/-- Claim C1 counterexample: calling `tenantQueryBuilder` with a tenant config
in which `tenantId` is omitted does not fail: no `InvalidArgument` (nor any
other) error is raised — the base query executes, with the tenant field bound
to `undefined`. -/
theorem tenantQueryBuilder_omitted_id_executes :
    tenantQueryBuilder (fun o => Except.ok o.filters) {} { tenantId := none } =
      Except.ok [("tenantId", JVal.undef)] := rfl

/-- Claim C1 (amended): the `tenantQueryBuilder` call never fails on its own —
`tenantId` is required only by the static TypeScript type, and at run time an
omitted `tenantId` raises no error.  For every tenant config it injects
`{[tenantField, default "tenantId"]: tenantId}` (with `undefined` as the value
when `tenantId` is omitted) as an additional filter spread over the caller's
filters, leaving every other filter key unchanged, and returns the base
query's result on those options. -/
theorem tenantQueryBuilder_spec :
    ∀ {R : Type} (qb : QueryOptions → Except QueryError R)
      (options : QueryOptions) (cfg : TenantConfig),
      (tenantQueryBuilder qb options cfg =
        qb { options with
              filters := spreadObj options.filters
                (buildTenantFilter cfg.tenantId
                  (cfg.tenantField.getD "tenantId")) }) ∧
      (∀ k, ¬ k = cfg.tenantField.getD "tenantId" →
        getKey (spreadObj options.filters
          (buildTenantFilter cfg.tenantId
            (cfg.tenantField.getD "tenantId"))) k =
          getKey options.filters k) := by
  intro R qb options cfg
  refine ⟨rfl, fun k hk => ?_⟩
  apply getKey_spread_left
  rw [getKey_eq_none_iff]
  intro x hx
  rcases List.mem_singleton.mp hx with rfl
  simpa using fun h => hk h.symm

theorem tenantQueryBuilder_spec_witness :
    getKey (spreadObj [("status", JVal.str "ACTIVE")]
        (buildTenantFilter (some "t1") "tenantId")) "status" =
      getKey [("status", JVal.str "ACTIVE")] "status" :=
  (tenantQueryBuilder_spec (R := Obj) (fun o => Except.ok o.filters)
      { filters := [("status", JVal.str "ACTIVE")] }
      { tenantId := some "t1" }).2 "status" (by decide)

/-! ## Query caching (`InMemoryCache`, `cachedQueryBuilder`)

Time is passed explicitly (`now`, the value `Date.now()` returns during the
call) and the default in-memory store is an explicit key → (value, expiry)
map.  Each run also reports the trace of store operations it performed and
whether the base query was executed. -/

/-- An operation performed against the cache store. -/
inductive CacheOp where
  | get : String → CacheOp
  | set : String → CacheOp
  | del : String → CacheOp
deriving DecidableEq, Repr

/-- The `InMemoryCache` backing map: key → (value, absolute expiry). -/
abbrev CacheMap (R : Type) := List (String × (R × Nat))

/-- `InMemoryCache.get`: `null` on a missing key; an entry read past its
expiry (`Date.now() > item.expiry`) is deleted and reported as missing;
otherwise the stored value is returned.  Also returns the updated map and
the operations performed. -/
def cacheGet {R : Type} (now : Nat) (m : CacheMap R) (key : String) :
    Option R × CacheMap R × List CacheOp :=
  match getKey m key with
  | none => (none, m, [CacheOp.get key])
  | some (v, expiry) =>
    if now > expiry then
      (none, eraseKey m key, [CacheOp.get key, CacheOp.del key])
    else
      (some v, m, [CacheOp.get key])

/-- `InMemoryCache.set`: stores the value with `expiry = Date.now() + ttl`,
`ttl` defaulting to 300000 ms (5 minutes) when the caller passed none. -/
def cacheSet {R : Type} (now : Nat) (m : CacheMap R) (key : String) (value : R)
    (ttl : Option Nat) : CacheMap R :=
  setKey m key (value, now + ttl.getD 300000)

structure CacheConfig where
  key : Option String := none
  ttl : Option Nat := none
  enabled : Option Bool := none

/-- The outcome of one `cachedQueryBuilder` call: the returned envelope, the
store after the call, the store operations performed, and whether the base
query was executed. -/
structure CacheOutcome (R : Type) where
  result : R
  store : CacheMap R
  ops : List CacheOp
  executed : Bool

/-- `cachedQueryBuilder`: destructures `{key, ttl, enabled = true}` from
`cacheConfig || {}`; when disabled or the key is falsy (missing or the empty
string) it runs the base query without touching the store; otherwise it is
read-through — a hit returns the stored envelope without executing, a miss
executes the base query and stores the result. -/
def cachedQueryBuilder {R : Type} (qb : QueryOptions → R)
    (options : QueryOptions) (cacheConfig : Option CacheConfig) (now : Nat)
    (store : CacheMap R) : CacheOutcome R :=
  let cfg := cacheConfig.getD {}
  let enabled := cfg.enabled.getD true
  match cfg.key with
  | none => ⟨qb options, store, [], true⟩
  | some key =>
    if enabled && !(key == "") then
      match cacheGet now store key with
      | (some cached, store2, ops) => ⟨cached, store2, ops, false⟩
      | (none, store2, ops) =>
        let result := qb options
        ⟨result, cacheSet now store2 key result cfg.ttl,
          ops ++ [CacheOp.set key], true⟩
    else
      ⟨qb options, store, [], true⟩

/-- Claim C3: `cachedQueryBuilder` is read-through.  With caching enabled and
a key: an unexpired stored entry is returned as-is without executing the base
query; on a miss the base query executes and its result is stored with
`expiry = now + ttl` (`ttl` defaulting to 5 minutes = 300000 ms); an entry
found expired on read is deleted by that read (lazy eviction) before the
query re-executes and re-stores.  With caching disabled or no key, the base
query always executes and the store is neither read nor written. -/
theorem cachedQueryBuilder_spec :
    (∀ {R : Type} (qb : QueryOptions → R) (options : QueryOptions)
      (cfg : CacheConfig) (now : Nat) (store : CacheMap R) (key : String),
      cfg.key = some key → cfg.enabled.getD true = true → ¬ key = "" →
      (∀ v expiry, getKey store key = some (v, expiry) → ¬ now > expiry →
        cachedQueryBuilder qb options (some cfg) now store =
          ⟨v, store, [CacheOp.get key], false⟩) ∧
      (getKey store key = none →
        cachedQueryBuilder qb options (some cfg) now store =
          ⟨qb options,
            setKey store key (qb options, now + cfg.ttl.getD 300000),
            [CacheOp.get key, CacheOp.set key], true⟩) ∧
      (∀ v expiry, getKey store key = some (v, expiry) → now > expiry →
        cacheGet now store key =
          (none, eraseKey store key, [CacheOp.get key, CacheOp.del key]) ∧
        cachedQueryBuilder qb options (some cfg) now store =
          ⟨qb options,
            setKey (eraseKey store key) key
              (qb options, now + cfg.ttl.getD 300000),
            [CacheOp.get key, CacheOp.del key, CacheOp.set key], true⟩)) ∧
    (∀ {R : Type} (qb : QueryOptions → R) (options : QueryOptions)
      (cacheConfig : Option CacheConfig) (now : Nat) (store : CacheMap R),
      ((cacheConfig.getD {}).enabled.getD true = false ∨
        (cacheConfig.getD {}).key = none ∨
        (cacheConfig.getD {}).key = some "") →
      cachedQueryBuilder qb options cacheConfig now store =
        ⟨qb options, store, [], true⟩) := by
  constructor
  · intro R qb options cfg now store key hkey hen hkne
    have hkb : (key == "") = false := by simpa using hkne
    refine ⟨?_, ?_, ?_⟩
    · intro v expiry hget hexp
      unfold cachedQueryBuilder
      simp [hkey, hen, hkb, cacheGet, hget, hexp]
    · intro hget
      unfold cachedQueryBuilder
      simp [hkey, hen, hkb, cacheGet, hget, cacheSet]
    · intro v expiry hget hexp
      constructor
      · unfold cacheGet
        rw [hget]
        simp [hexp]
      · unfold cachedQueryBuilder
        simp [hkey, hen, hkb, cacheGet, hget, hexp, cacheSet]
  · intro R qb options cacheConfig now store hdis
    unfold cachedQueryBuilder
    rcases hdis with hdis | hdis | hdis
    · cases hk : (cacheConfig.getD {}).key with
      | none => simp [hk]
      | some key => simp [hk, hdis]
    · simp [hdis]
    · simp [hdis]

theorem cachedQueryBuilder_spec_witness :
    (cachedQueryBuilder (fun _ => (37 : Nat)) {}
        (some { key := some "users", enabled := some true }) 10
        [("users", (99, 20))] =
      ⟨99, [("users", (99, 20))], [CacheOp.get "users"], false⟩) ∧
    (cachedQueryBuilder (fun _ => (37 : Nat)) {}
        (some { key := some "users", ttl := some 50 }) 10 [] =
      ⟨37, [("users", (37, 60))],
        [CacheOp.get "users", CacheOp.set "users"], true⟩) ∧
    (cachedQueryBuilder (fun _ => (37 : Nat)) {}
        (some { key := some "users" }) 21 [("users", (99, 20))] =
      ⟨37, [("users", (37, 21 + 300000))],
        [CacheOp.get "users", CacheOp.del "users", CacheOp.set "users"],
        true⟩) ∧
    (cachedQueryBuilder (fun _ => (37 : Nat)) {}
        (some { key := some "users", enabled := some false }) 10
        [("users", (99, 20))] =
      ⟨37, [("users", (99, 20))], [], true⟩) := by
  have hc := cachedQueryBuilder_spec
  refine ⟨?_, ?_, ?_, ?_⟩
  · exact (hc.1 (fun _ => (37 : Nat)) {}
      { key := some "users", enabled := some true } 10 [("users", (99, 20))]
      "users" rfl rfl (by decide)).1 99 20 rfl (by decide)
  · have := (hc.1 (fun _ => (37 : Nat)) {}
      { key := some "users", ttl := some 50 } 10 [] "users" rfl rfl
      (by decide)).2.1 rfl
    rw [this]; rfl
  · have := ((hc.1 (fun _ => (37 : Nat)) {}
      { key := some "users" } 21 [("users", (99, 20))] "users" rfl rfl
      (by decide)).2.2 99 20 rfl (by decide)).2
    rw [this]; rfl
  · exact hc.2 (fun _ => (37 : Nat)) {}
      (some { key := some "users", enabled := some false }) 10
      [("users", (99, 20))] (Or.inl rfl)

/-- Claim C9: tenant scoping cannot be bypassed through caller filters — for
every options object (including one whose filters already bind the tenant
field to another value) the filters object handed to the base query maps the
tenant field to the configured `tenantId`, because the injected tenant filter
is spread after the caller's filters and overwrites any same-key entry. -/
theorem tenantQueryBuilder_override :
    ∀ {R : Type} (qb : QueryOptions → Except QueryError R)
      (options : QueryOptions) (cfg : TenantConfig) (tid : String),
      cfg.tenantId = some tid →
      (tenantQueryBuilder qb options cfg =
        qb { options with
              filters := spreadObj options.filters
                (buildTenantFilter cfg.tenantId
                  (cfg.tenantField.getD "tenantId")) }) ∧
      getKey (spreadObj options.filters
          (buildTenantFilter cfg.tenantId
            (cfg.tenantField.getD "tenantId")))
        (cfg.tenantField.getD "tenantId") = some (JVal.str tid) := by
  intro R qb options cfg tid htid
  refine ⟨rfl, ?_⟩
  apply getKey_spread_right
  rw [htid]
  simp [buildTenantFilter, getKey_cons, tenantIdVal]

theorem tenantQueryBuilder_override_witness :
    getKey (spreadObj [("tenantId", JVal.str "someone-else")]
        (buildTenantFilter (some "acme") "tenantId")) "tenantId" =
      some (JVal.str "acme") :=
  (tenantQueryBuilder_override (R := Obj) (fun o => Except.ok o.filters)
      { filters := [("tenantId", JVal.str "someone-else")] }
      { tenantId := some "acme" } "acme" rfl).2

/-! ## Webhook integration (`queryWithWebhook`)

The HTTP delivery is an external effect: the model takes the behaviour of
`fetch` for this call as a parameter (`Except.ok` for a fulfilled POST,
`Except.error` for a rejected one).  The decorator builds the payload,
fires the POST without awaiting it and catches any rejection, appending a
`console.error` line to the log. -/

structure WebhookOptions where
  headers : Obj := []
  includeQuery : Bool := false

/-- The JSON body POSTed to the webhook: the base result plus, when
`includeQuery` is set, the query options. -/
structure WebhookBody (R : Type) where
  result : R
  query : Option QueryOptions

/-- The outcome of one `queryWithWebhook` call: the value returned to the
caller and the `console.error` lines produced. -/
structure WebhookOutcome (R : Type) where
  result : R
  log : List String

/-- `queryWithWebhook`: runs the base query, POSTs `{data, meta, ...}` with
`Content-Type: application/json` spread under the caller's extra headers,
catches a delivery failure by logging it, and returns the base result. -/
def queryWithWebhook {R : Type} (qb : QueryOptions → R)
    (options : QueryOptions) (webhookUrl : String)
    (webhookOptions : Option WebhookOptions)
    (fetchRun : String → Obj → WebhookBody R → Except String Unit) :
    WebhookOutcome R :=
  let result := qb options
  let wo := webhookOptions.getD {}
  let headers :=
    spreadObj [("Content-Type", JVal.str "application/json")] wo.headers
  let body : WebhookBody R :=
    ⟨result, if wo.includeQuery then some options else none⟩
  ⟨result,
    match fetchRun webhookUrl headers body with
    | Except.ok _ => []
    | Except.error e => ["Webhook error: " ++ e]⟩

/-- Claim C2: `queryWithWebhook` returns exactly the base `queryBuilder`
result for its options no matter how the webhook POST behaves — two runs
differing only in delivery outcome return the same value — and a delivery
failure is caught and logged (the returned type has no failure channel, so a
rejection is never propagated to the caller). -/
theorem queryWithWebhook_spec :
    (∀ {R : Type} (qb : QueryOptions → R) (options : QueryOptions)
      (url : String) (wo : Option WebhookOptions)
      (fetchRun : String → Obj → WebhookBody R → Except String Unit),
      (queryWithWebhook qb options url wo fetchRun).result = qb options) ∧
    (∀ {R : Type} (qb : QueryOptions → R) (options : QueryOptions)
      (url : String) (wo : Option WebhookOptions)
      (fetchRun fetchRun₂ : String → Obj → WebhookBody R → Except String Unit),
      (queryWithWebhook qb options url wo fetchRun).result =
        (queryWithWebhook qb options url wo fetchRun₂).result) ∧
    (∀ {R : Type} (qb : QueryOptions → R) (options : QueryOptions)
      (url : String) (wo : Option WebhookOptions)
      (fetchRun : String → Obj → WebhookBody R → Except String Unit) (e : String),
      (∀ h b, fetchRun url h b = Except.error e) →
      queryWithWebhook qb options url wo fetchRun =
        ⟨qb options, ["Webhook error: " ++ e]⟩) := by
  refine ⟨?_, ?_, ?_⟩
  · intro R qb options url wo fetchRun
    rfl
  · intro R qb options url wo f g
    rfl
  · intro R qb options url wo fetchRun e hfail
    simp only [queryWithWebhook]
    rw [hfail]

theorem queryWithWebhook_spec_witness :
    queryWithWebhook (fun _ => (5 : Nat)) {} "https://hooks.example/x" none
        (fun _ _ _ => Except.error "ECONNREFUSED") =
      ⟨5, ["Webhook error: " ++ "ECONNREFUSED"]⟩ :=
  (queryWithWebhook_spec.2.2 (fun _ => (5 : Nat)) {} "https://hooks.example/x"
    none (fun _ _ _ => Except.error "ECONNREFUSED") "ECONNREFUSED"
    (fun _ _ => rfl))

/-! ## Query presets (`saveQueryPreset`, `loadQueryPreset`, `executePreset`)

The process-wide `presets` map is passed explicitly.  Preset options are
whole JavaScript objects, so the shallow merge in `executePreset` is the
top-level object spread `{...preset, ...overrides}`. -/

/-- The preset registry: name → stored options object. -/
abbrev PresetMap := List (String × Obj)

/-- `saveQueryPreset`: `presets.set(name, options)` — silently overwrites. -/
def saveQueryPreset (presets : PresetMap) (name : String) (options : Obj) :
    PresetMap :=
  setKey presets name options

/-- `loadQueryPreset`: throws a not-found error naming the preset when the
name is absent; otherwise returns the stored options object. -/
def loadQueryPreset (presets : PresetMap) (name : String) :
    Except QueryError Obj :=
  match getKey presets name with
  | none => Except.error (QueryError.notFound name)
  | some preset => Except.ok preset

/-- `executePreset`: loads the preset, executes
`queryBuilder({...preset, ...overrides})`, and returns the (unchanged)
registry alongside the result. -/
def executePreset {R : Type} (qb : Obj → R) (presets : PresetMap)
    (name : String) (overrides : Obj) : Except QueryError (R × PresetMap) :=
  match loadQueryPreset presets name with
  | Except.error e => Except.error e
  | Except.ok preset => Except.ok (qb (spreadObj preset overrides), presets)

/-- Claim C10: `executePreset(name, overrides)` leaves the preset registry
unchanged — it executes a fresh shallow merge of the stored preset with the
overrides, each top-level key reading from the overrides first and the
stored preset otherwise, and after the call `loadQueryPreset(name)` still
returns the very same stored options object; overrides are never written
back into the registry. -/
theorem executePreset_spec :
    ∀ {R : Type} (qb : Obj → R) (presets : PresetMap) (name : String)
      (overrides stored : Obj),
      getKey presets name = some stored →
      (executePreset qb presets name overrides =
        Except.ok (qb (spreadObj stored overrides), presets)) ∧
      (∀ k, getKey (spreadObj stored overrides) k =
        match getKey overrides k with
        | some v => some v
        | none => getKey stored k) ∧
      (∀ st : PresetMap,
        executePreset qb presets name overrides =
          Except.ok (qb (spreadObj stored overrides), st) →
        loadQueryPreset st name = Except.ok stored) := by
  intro R qb presets name overrides stored hname
  have hload : loadQueryPreset presets name = Except.ok stored := by
    unfold loadQueryPreset
    rw [hname]
  have hexec : executePreset qb presets name overrides =
      Except.ok (qb (spreadObj stored overrides), presets) := by
    unfold executePreset
    rw [hload]
  refine ⟨hexec, fun k => ?_, fun st hst => ?_⟩
  · cases hov : getKey overrides k with
    | some v => exact getKey_spread_right stored overrides k v hov
    | none => exact getKey_spread_left stored overrides k hov
  · have : st = presets := by
      rw [hexec] at hst
      exact congrArg Prod.snd (Except.ok.inj hst) |>.symm
    rw [this, hload]

theorem executePreset_spec_witness :
    executePreset (fun o => getKey o "limit")
        [("recent", [("limit", JVal.num 10), ("sortBy", JVal.str "createdAt")])]
        "recent" [("limit", JVal.num 50)] =
      Except.ok (some (JVal.num 50),
        [("recent",
          [("limit", JVal.num 10), ("sortBy", JVal.str "createdAt")])]) := by
  have h := (executePreset_spec (fun o => getKey o "limit")
    [("recent", [("limit", JVal.num 10), ("sortBy", JVal.str "createdAt")])]
    "recent" [("limit", JVal.num 50)]
    [("limit", JVal.num 10), ("sortBy", JVal.str "createdAt")] rfl).1
  rw [h]
  rfl

/-! ## Pagination helpers (spec-modelled)

`src/pagination.ts` is not among the provided sources: only its edge-case
tests and the spec describe `processCursorResults` and
`calculateTotalPages`, so these two are modelled from the spec. -/

/-- A result row as the pagination helpers see it. -/
abbrev Row := List (String × JVal)

structure CursorProcessed where
  data : List Row
  hasMore : Bool
  nextCursor : Option JVal

/-- Modelled from the spec: the implementation of
`processCursorResults(rows, limit, cursorField)` is missing from the
sources.  Per the spec: if `rows.length > limit` then `hasMore = true`,
`data = rows[0..limit)` and `nextCursor = data[last][cursorField]`;
otherwise `hasMore = false`, `data = rows` in full, and `nextCursor` is
`rows[last][cursorField]` for non-empty rows and null (`none`) for empty
rows. -/
def processCursorResults (rows : List Row) (limit : Nat)
    (cursorField : String) : CursorProcessed :=
  if limit < rows.length then
    { data := rows.take limit
      hasMore := true
      nextCursor :=
        ((rows.take limit).getLast?).bind (fun r => getKey r cursorField) }
  else
    { data := rows
      hasMore := false
      nextCursor := (rows.getLast?).bind (fun r => getKey r cursorField) }

/-- Claim C5 (spec-modelled): `processCursorResults` reports
`hasMore = (rows.length > limit)`; when there are more rows than the limit,
`data` is exactly the first `limit` rows and `nextCursor` is the cursor
field of the last returned row; otherwise `data` is all of `rows` and
`nextCursor` is the last row's cursor field, null for an empty row list. -/
theorem processCursorResults_spec :
    ∀ (rows : List Row) (limit : Nat) (cursorField : String),
      ((processCursorResults rows limit cursorField).hasMore =
        decide (limit < rows.length)) ∧
      (limit < rows.length →
        (processCursorResults rows limit cursorField).data = rows.take limit ∧
        (processCursorResults rows limit cursorField).data.length = limit ∧
        (processCursorResults rows limit cursorField).nextCursor =
          ((rows.take limit).getLast?).bind (fun r => getKey r cursorField)) ∧
      (rows.length ≤ limit →
        (processCursorResults rows limit cursorField).data = rows ∧
        (processCursorResults rows limit cursorField).nextCursor =
          (rows.getLast?).bind (fun r => getKey r cursorField)) ∧
      (rows = [] →
        (processCursorResults rows limit cursorField).nextCursor = none) := by
  intro rows limit cursorField
  refine ⟨?_, fun hlt => ?_, fun hle => ?_, fun hnil => ?_⟩
  · unfold processCursorResults
    by_cases h : limit < rows.length
    · simp [h]
    · simp [h]
  · unfold processCursorResults
    rw [if_pos hlt]
    exact ⟨rfl, by simp [Nat.le_of_lt hlt], rfl⟩
  · have h : ¬ limit < rows.length := Nat.not_lt.mpr hle
    unfold processCursorResults
    rw [if_neg h]
    exact ⟨rfl, rfl⟩
  · subst hnil
    simp [processCursorResults]

theorem processCursorResults_spec_witness :
    (processCursorResults
        [[("slug", JVal.str "a")], [("slug", JVal.str "b")],
          [("slug", JVal.str "c")]] 2 "slug").data =
      [[("slug", JVal.str "a")], [("slug", JVal.str "b")]] ∧
    (processCursorResults
        [[("slug", JVal.str "a")], [("slug", JVal.str "b")],
          [("slug", JVal.str "c")]] 2 "slug").hasMore = true ∧
    (processCursorResults
        [[("slug", JVal.str "a")], [("slug", JVal.str "b")],
          [("slug", JVal.str "c")]] 2 "slug").nextCursor =
      some (JVal.str "b") := by
  have h := processCursorResults_spec
    [[("slug", JVal.str "a")], [("slug", JVal.str "b")],
      [("slug", JVal.str "c")]] 2 "slug"
  have h2 := h.2.1 (by decide)
  exact ⟨by rw [h2.1]; rfl, by rw [h.1]; rfl, by rw [h2.2.2]; rfl⟩

/-- Modelled from the spec: the implementation of
`calculateTotalPages(total, limit)` is missing from the sources.  Per the
spec it returns `ceil(total / limit)`, which over the naturals is
`(total + limit - 1) / limit`. -/
def calculateTotalPages (total limit : Nat) : Nat :=
  (total + limit - 1) / limit

/-- Claim C6 (spec-modelled): for `total ≥ 0` and `limit ≥ 1`,
`calculateTotalPages(total, limit)` is the ceiling of `total / limit`
(stated both as the exact rational-ceiling equation and as the
characterizing bounds), and it is 0 exactly when `total = 0`, whatever the
limit. -/
theorem calculateTotalPages_spec :
    ∀ total limit : Nat, 1 ≤ limit →
      (total ≤ limit * calculateTotalPages total limit ∧
        limit * calculateTotalPages total limit < total + limit) ∧
      ((calculateTotalPages total limit : Int) =
        Int.ceil ((total : ℚ) / (limit : ℚ))) ∧
      (calculateTotalPages total limit = 0 ↔ total = 0) := by
  intro total limit hl
  have hl0 : 0 < limit := hl
  have hbounds : total ≤ limit * calculateTotalPages total limit ∧
      limit * calculateTotalPages total limit < total + limit := by
    cases total with
    | zero =>
      have hz : calculateTotalPages 0 limit = 0 := by
        unfold calculateTotalPages
        exact Nat.div_eq_of_lt (by omega)
      rw [hz]
      omega
    | succ s =>
      have hp : calculateTotalPages (s + 1) limit = s / limit + 1 := by
        unfold calculateTotalPages
        have hstep : s + 1 + limit - 1 = s + limit := by omega
        rw [hstep, Nat.add_div_right s hl0]
      have hdm : limit * (s / limit) + s % limit = s := Nat.div_add_mod s limit
      have hmod : s % limit < limit := Nat.mod_lt s hl0
      rw [hp, Nat.mul_add, Nat.mul_one]
      set t := limit * (s / limit) with ht
      set r := s % limit with hr
      omega
  refine ⟨hbounds, ?_, ?_⟩
  · have hlq : (0 : ℚ) < (limit : ℚ) := by exact_mod_cast hl0
    symm
    rw [Int.ceil_eq_iff]
    constructor
    · rw [lt_div_iff₀ hlq]
      have h2 : (limit : ℚ) * (calculateTotalPages total limit : ℚ)
          < (total : ℚ) + (limit : ℚ) := by exact_mod_cast hbounds.2
      push_cast
      nlinarith [h2]
    · rw [div_le_iff₀ hlq]
      have h1 : (total : ℚ) ≤ (limit : ℚ) *
          (calculateTotalPages total limit : ℚ) := by exact_mod_cast hbounds.1
      push_cast
      nlinarith [h1]
  · constructor
    · intro h0
      rcases hbounds with ⟨h1, _⟩
      rw [h0] at h1
      omega
    · intro h0
      subst h0
      unfold calculateTotalPages
      exact Nat.div_eq_of_lt (by omega)

theorem calculateTotalPages_spec_witness :
    calculateTotalPages 0 10 = 0 ∧ calculateTotalPages 7 3 = 3 :=
  ⟨(calculateTotalPages_spec 0 10 (by decide)).2.2.mpr rfl, rfl⟩

/-! ## Filter combinators (spec-modelled)

`src/filters.ts` is not among the provided sources: only its edge-case
tests and the spec describe `combineFilters` and `combineFiltersWithOr`. -/

/-- Modelled from the spec: the implementation of `combineFilters(...)` (the
AND combinator) is missing from the sources.  Per the spec and tests: no
inputs yield the empty object (no constraint), one input is returned
unwrapped, and two or more are wrapped in an `{AND: [...]}` node. -/
def combineFilters (filters : List Obj) : Obj :=
  match filters with
  | [] => []
  | [f] => f
  | fs => [("AND", JVal.arr (fs.map JVal.obj))]

/-- Modelled from the spec: the implementation of
`combineFiltersWithOr(...)` is missing from the sources.  Per the spec and
tests: empty-object inputs are dropped; no non-empty input yields
`undefined` (`none`), exactly one non-empty input is returned unwrapped
(not an OR node of one child), and two or more are wrapped in an
`{OR: [...]}` node. -/
def combineFiltersWithOr (filters : List Obj) : Option Obj :=
  match filters.filter (fun f => !f.isEmpty) with
  | [] => none
  | [f] => some f
  | fs => some [("OR", JVal.arr (fs.map JVal.obj))]

/-- Claim C7 (spec-modelled): `combineFilters` of no inputs is the
no-constraint empty object, of one input that input unwrapped, of two or
more an AND node over them; `combineFiltersWithOr` of no non-empty inputs
is absent, and of exactly one non-empty input (after dropping empties) that
input unwrapped, not an OR node of one child. -/
theorem combineFilters_spec :
    (combineFilters [] = []) ∧
    (∀ f : Obj, combineFilters [f] = f) ∧
    (∀ (f g : Obj) (fs : List Obj),
      combineFilters (f :: g :: fs) =
        [("AND", JVal.arr ((f :: g :: fs).map JVal.obj))]) ∧
    (∀ fs : List Obj, (∀ f ∈ fs, f = []) → combineFiltersWithOr fs = none) ∧
    (∀ (fs : List Obj) (f : Obj),
      fs.filter (fun x => !x.isEmpty) = [f] →
      combineFiltersWithOr fs = some f) := by
  refine ⟨rfl, fun f => rfl, fun f g fs => rfl, fun fs hall => ?_,
    fun fs f hone => ?_⟩
  · have hfil : fs.filter (fun f => !f.isEmpty) = [] := by
      rw [List.filter_eq_nil_iff]
      intro a ha
      rw [hall a ha]
      decide
    unfold combineFiltersWithOr
    rw [hfil]
  · unfold combineFiltersWithOr
    rw [hone]

theorem combineFilters_spec_witness :
    combineFiltersWithOr [[], []] = none ∧
    combineFiltersWithOr [[("status", JVal.str "ACTIVE")]] =
      some [("status", JVal.str "ACTIVE")] := by
  refine ⟨combineFilters_spec.2.2.2.1 [[], []] ?_,
    combineFilters_spec.2.2.2.2 [[("status", JVal.str "ACTIVE")]]
      [("status", JVal.str "ACTIVE")] rfl⟩
  intro f hf
  rcases List.mem_cons.mp hf with h | hf2
  · exact h
  · rcases List.mem_cons.mp hf2 with h | h
    · exact h
    · exact absurd h (List.not_mem_nil f)

/-! ## CSV export (`toCSV`)

Strings are modelled as explicit character lists so that the escaping and
its RFC4180 inverse can be reasoned about character by character. -/

/-- CSV text as an explicit character list. -/
abbrev Str := List Char

/-- A cell value as `toCSV` normalizes it.  The `json` constructor stands
for a non-primitive value, carrying the (opaque) `JSON.stringify` output
produced for it. -/
inductive CellValue where
  | null : CellValue
  | undef : CellValue
  | str : Str → CellValue
  | num : Int → CellValue
  | bool : Bool → CellValue
  | json : Str → CellValue

/-- `normalizeValue`: null and undefined become the empty string, strings
pass through, numbers and booleans are `String(...)`, and any other value
is `JSON.stringify`-ed before escaping. -/
def normalizeValue : CellValue → Str
  | CellValue.null => []
  | CellValue.undef => []
  | CellValue.str s => s
  | CellValue.num n => (toString n).data
  | CellValue.bool b => (toString b).data
  | CellValue.json j => j

/-- `raw.includes(",") || raw.includes(quote) || raw.includes("\n") ||
raw.includes("\r")`. -/
def needsQuotes (raw : Str) : Bool :=
  decide (',' ∈ raw) || decide ('"' ∈ raw) ||
    decide ('\n' ∈ raw) || decide ('\r' ∈ raw)

/-- `raw.replace(/"/g, twoQuotes)`: every double quote is doubled. -/
def doubleQuotes : Str → Str
  | [] => []
  | c :: cs =>
    if c = '"' then '"' :: '"' :: doubleQuotes cs else c :: doubleQuotes cs

/-- `escapeCsv` from `toCSV`: quote-wrap exactly when the raw cell contains
a comma, a double quote or a newline, after doubling embedded quotes. -/
def escapeCsv (raw : Str) : Str :=
  if needsQuotes raw then '"' :: (doubleQuotes raw ++ ['"'])
  else doubleQuotes raw

/-- A data row as `toCSV` sees it: field name → cell value. -/
abbrev CsvRow := List (Str × CellValue)

/-- `row[header]`: a missing field reads as `undefined`. -/
def rowGet (row : CsvRow) (h : Str) : CellValue :=
  match row.find? (fun p => p.1 == h) with
  | some p => p.2
  | none => CellValue.undef

/-- `toCSV`: empty data yields the empty string; otherwise the first row's
keys become the header line and each row is emitted as its escaped cells
joined by commas, all lines joined by newlines. -/
def toCSV (data : List CsvRow) : Str :=
  match data with
  | [] => []
  | first :: _ =>
    let headers := first.map (fun p => p.1)
    let csvHeaders := List.intercalate [','] headers
    let csvRows := data.map (fun row =>
      List.intercalate [',']
        (headers.map (fun h => escapeCsv (normalizeValue (rowGet row h)))))
    List.intercalate ['\n'] (csvHeaders :: csvRows)

/-- Parser state of the RFC4180 re-splitter: outside quotes, inside a
quoted field, or just after a quote seen inside a quoted field. -/
inductive CsvMode where
  | unq : CsvMode
  | inq : CsvMode
  | afterq : CsvMode

/-- One-pass RFC4180 field splitter for a single record; `cur` accumulates
the current field in reverse. -/
def splitRowAux : Str → CsvMode → Str → List Str
  | [], _, cur => [cur.reverse]
  | c :: cs, CsvMode.unq, cur =>
    if c = ',' then cur.reverse :: splitRowAux cs CsvMode.unq []
    else if c = '"' then splitRowAux cs CsvMode.inq cur
    else splitRowAux cs CsvMode.unq (c :: cur)
  | c :: cs, CsvMode.inq, cur =>
    if c = '"' then splitRowAux cs CsvMode.afterq cur
    else splitRowAux cs CsvMode.inq (c :: cur)
  | c :: cs, CsvMode.afterq, cur =>
    if c = '"' then splitRowAux cs CsvMode.inq ('"' :: cur)
    else if c = ',' then cur.reverse :: splitRowAux cs CsvMode.unq []
    else splitRowAux cs CsvMode.unq (c :: cur)

/-- Split one CSV record into its fields by RFC4180 rules. -/
def splitCsvRow (s : Str) : List Str :=
  splitRowAux s CsvMode.unq []

theorem needsQuotes_eq_false {raw : Str} (h : needsQuotes raw = false) :
    ',' ∉ raw ∧ '"' ∉ raw := by
  unfold needsQuotes at h
  simp only [Bool.or_eq_false_iff, decide_eq_false_iff_not] at h
  exact ⟨h.1.1.1, h.1.1.2⟩

theorem doubleQuotes_of_no_quote {s : Str} (h : '"' ∉ s) :
    doubleQuotes s = s := by
  induction s with
  | nil => rfl
  | cons c cs ih =>
    have hc : ¬ c = '"' := fun hc => h (hc ▸ List.mem_cons_self c cs)
    unfold doubleQuotes
    rw [if_neg hc, ih (fun hm => h (List.mem_cons_of_mem c hm))]

theorem doubleQuotes_cons (c : Char) (cs : Str) :
    doubleQuotes (c :: cs) =
      if c = '"' then '"' :: '"' :: doubleQuotes cs
      else c :: doubleQuotes cs := rfl

theorem splitRowAux_nil (m : CsvMode) (cur : Str) :
    splitRowAux [] m cur = [cur.reverse] := by
  cases m <;> rfl

theorem splitRowAux_unq (c : Char) (cs cur : Str) :
    splitRowAux (c :: cs) CsvMode.unq cur =
      if c = ',' then cur.reverse :: splitRowAux cs CsvMode.unq []
      else if c = '"' then splitRowAux cs CsvMode.inq cur
      else splitRowAux cs CsvMode.unq (c :: cur) := rfl

theorem splitRowAux_inq (c : Char) (cs cur : Str) :
    splitRowAux (c :: cs) CsvMode.inq cur =
      if c = '"' then splitRowAux cs CsvMode.afterq cur
      else splitRowAux cs CsvMode.inq (c :: cur) := rfl

theorem splitRowAux_afterq (c : Char) (cs cur : Str) :
    splitRowAux (c :: cs) CsvMode.afterq cur =
      if c = '"' then splitRowAux cs CsvMode.inq ('"' :: cur)
      else if c = ',' then cur.reverse :: splitRowAux cs CsvMode.unq []
      else splitRowAux cs CsvMode.unq (c :: cur) := rfl

theorem splitRowAux_unq_consume {s : Str} (hnc : ',' ∉ s) (hnq : '"' ∉ s) :
    ∀ (rest cur : Str),
      splitRowAux (s ++ rest) CsvMode.unq cur =
        splitRowAux rest CsvMode.unq (s.reverse ++ cur) := by
  induction s with
  | nil => intro rest cur; rfl
  | cons c cs ih =>
    intro rest cur
    have hc1 : ¬ c = ',' := fun h => hnc (h ▸ List.mem_cons_self c cs)
    have hc2 : ¬ c = '"' := fun h => hnq (h ▸ List.mem_cons_self c cs)
    have hcs1 : ',' ∉ cs := fun h => hnc (List.mem_cons_of_mem c h)
    have hcs2 : '"' ∉ cs := fun h => hnq (List.mem_cons_of_mem c h)
    rw [List.cons_append, splitRowAux_unq, if_neg hc1, if_neg hc2,
      ih hcs1 hcs2 rest (c :: cur)]
    simp

theorem splitRowAux_inq_consume (s : Str) :
    ∀ (rest cur : Str),
      splitRowAux (doubleQuotes s ++ ('"' :: rest)) CsvMode.inq cur =
        splitRowAux rest CsvMode.afterq (s.reverse ++ cur) := by
  induction s with
  | nil =>
    intro rest cur
    show splitRowAux ('"' :: rest) CsvMode.inq cur = _
    rw [splitRowAux_inq, if_pos rfl]
    simp
  | cons c cs ih =>
    intro rest cur
    by_cases hc : c = '"'
    · subst hc
      rw [doubleQuotes_cons, if_pos rfl, List.cons_append, List.cons_append,
        splitRowAux_inq, if_pos rfl, splitRowAux_afterq, if_pos rfl,
        ih rest ('"' :: cur)]
      simp
    · rw [doubleQuotes_cons, if_neg hc, List.cons_append, splitRowAux_inq,
        if_neg hc, ih rest (c :: cur)]
      simp

theorem intercalate_char_two (sep : Char) (s t : Str) (rest : List Str) :
    List.intercalate [sep] (s :: t :: rest) =
      s ++ sep :: List.intercalate [sep] (t :: rest) := by
  simp [List.intercalate, List.intersperse]

theorem intercalate_char_one (sep : Char) (s : Str) :
    List.intercalate [sep] [s] = s := by
  simp [List.intercalate, List.intersperse]

theorem splitCsvRow_escape (cells : List Str) :
    ∀ c : Str,
      splitCsvRow (List.intercalate [','] ((c :: cells).map escapeCsv)) =
        c :: cells := by
  induction cells with
  | nil =>
    intro c
    rw [List.map_singleton, intercalate_char_one]
    unfold splitCsvRow
    by_cases hq : needsQuotes c = true
    · rw [show escapeCsv c = '"' :: (doubleQuotes c ++ ['"']) from
        if_pos hq]
      rw [splitRowAux_unq, if_neg (by decide), if_pos rfl,
        show (['"'] : Str) = '"' :: [] from rfl,
        splitRowAux_inq_consume c [] [], splitRowAux_nil]
      simp
    · rw [Bool.not_eq_true] at hq
      rcases needsQuotes_eq_false hq with ⟨hnc, hnq⟩
      rw [show escapeCsv c = doubleQuotes c from if_neg (by simp [hq]),
        doubleQuotes_of_no_quote hnq]
      have h0 := splitRowAux_unq_consume hnc hnq [] []
      rw [List.append_nil] at h0
      rw [h0, splitRowAux_nil]
      simp
  | cons d rest ih =>
    intro c
    rw [List.map_cons, List.map_cons, intercalate_char_two]
    unfold splitCsvRow
    by_cases hq : needsQuotes c = true
    · rw [show escapeCsv c = '"' :: (doubleQuotes c ++ ['"']) from
        if_pos hq]
      rw [List.cons_append, splitRowAux_unq, if_neg (by decide), if_pos rfl,
        List.append_assoc, List.singleton_append,
        splitRowAux_inq_consume c _ [], splitRowAux_afterq, if_neg (by decide),
        if_pos rfl, List.append_nil, List.reverse_reverse]
      have hd := ih d
      unfold splitCsvRow at hd
      rw [List.map_cons] at hd
      rw [hd]
    · rw [Bool.not_eq_true] at hq
      rcases needsQuotes_eq_false hq with ⟨hnc, hnq⟩
      rw [show escapeCsv c = doubleQuotes c from if_neg (by simp [hq]),
        doubleQuotes_of_no_quote hnq,
        splitRowAux_unq_consume hnc hnq _ [], splitRowAux_unq, if_pos rfl,
        List.append_nil, List.reverse_reverse]
      have hd := ih d
      unfold splitCsvRow at hd
      rw [List.map_cons] at hd
      rw [hd]

theorem rowGet_self {row : CsvRow} (hnd : (row.map (fun p => p.1)).Nodup) :
    ∀ p ∈ row, rowGet row p.1 = p.2 := by
  induction row with
  | nil => intro p hp; exact absurd hp (List.not_mem_nil p)
  | cons x xs ih =>
    intro p hp
    rcases List.mem_cons.mp hp with rfl | hmem
    · unfold rowGet
      simp [List.find?]
    · have hx : ¬ x.1 = p.1 := by
        intro heq
        have : p.1 ∈ xs.map (fun q => q.1) :=
          List.mem_map.mpr ⟨p, hmem, rfl⟩
        rw [List.map_cons] at hnd
        exact (List.nodup_cons.mp hnd).1 (heq ▸ this)
      have hb : (x.1 == p.1) = false := by
        simpa using hx
      have htail : (xs.map (fun q => q.1)).Nodup := by
        rw [List.map_cons] at hnd
        exact (List.nodup_cons.mp hnd).2
      have := ih htail p hmem
      unfold rowGet at this ⊢
      rw [List.find?_cons, hb]
      exact this

/-- Claim C8: `toCSV` escapes each cell so that the output round-trips: a
cell is quote-wrapped exactly when it contains a comma, a double quote or a
newline; embedded double quotes are doubled; a non-primitive cell value is
JSON-stringified before escaping; re-splitting an emitted row by RFC4180
rules recovers every cell exactly — in particular any string containing a
comma and an embedded double quote; and `toCSV` of one row with distinct
field names emits a header line plus exactly that escaped cell row. -/
theorem toCSV_spec :
    (∀ raw : Str, needsQuotes raw =
      (decide (',' ∈ raw) || decide ('"' ∈ raw) ||
        decide ('\n' ∈ raw) || decide ('\r' ∈ raw))) ∧
    (∀ raw : Str, needsQuotes raw = true →
      escapeCsv raw = '"' :: (doubleQuotes raw ++ ['"'])) ∧
    (∀ raw : Str, needsQuotes raw = false → escapeCsv raw = raw) ∧
    (∀ j : Str, normalizeValue (CellValue.json j) = j) ∧
    (∀ (c : Str) (cells : List Str),
      splitCsvRow (List.intercalate [','] ((c :: cells).map escapeCsv)) =
        c :: cells) ∧
    (∀ s : Str, ',' ∈ s → '"' ∈ s → splitCsvRow (escapeCsv s) = [s]) ∧
    (∀ (p : Str × CellValue) (row : CsvRow),
      ((p :: row).map (fun q => q.1)).Nodup →
      toCSV [p :: row] =
        List.intercalate [','] ((p :: row).map (fun q => q.1)) ++
          '\n' :: List.intercalate [',']
            ((p :: row).map (fun q => escapeCsv (normalizeValue q.2)))) := by
  refine ⟨fun raw => rfl, fun raw hq => if_pos hq, ?_, fun j => rfl, ?_, ?_, ?_⟩
  · intro raw hq
    rcases needsQuotes_eq_false hq with ⟨_, hnq⟩
    unfold escapeCsv
    rw [if_neg (by simp [hq]), doubleQuotes_of_no_quote hnq]
  · intro c cells
    exact splitCsvRow_escape cells c
  · intro s hc hq
    have h := splitCsvRow_escape [] s
    rw [List.map_singleton, intercalate_char_one] at h
    exact h
  · intro p row hnd
    have hcells : ((p :: row).map (fun q => q.1)).map
        (fun h => escapeCsv (normalizeValue (rowGet (p :: row) h))) =
        (p :: row).map (fun q => escapeCsv (normalizeValue q.2)) := by
      rw [List.map_map]
      apply List.map_congr_left
      intro q hq
      show escapeCsv (normalizeValue (rowGet (p :: row) q.1)) =
        escapeCsv (normalizeValue q.2)
      rw [rowGet_self hnd q hq]
    simp only [toCSV]
    rw [List.map_singleton, hcells, intercalate_char_two '\n',
      intercalate_char_one]

theorem toCSV_spec_witness :
    splitCsvRow (escapeCsv ['a', ',', '"', 'b']) = [['a', ',', '"', 'b']] ∧
    toCSV [[(['i', 'd'], CellValue.str ['a', ',', '"', 'b'])]] =
      ['i', 'd', '\n', '"', 'a', ',', '"', '"', 'b', '"'] := by
  constructor
  · exact toCSV_spec.2.2.2.2.2.1 ['a', ',', '"', 'b'] (by decide) (by decide)
  · have h := toCSV_spec.2.2.2.2.2.2
      (['i', 'd'], CellValue.str ['a', ',', '"', 'b']) [] (by decide)
    rw [h]
    rfl

end PrismaPilot
